import Mathlib

/-!
# Verification of the datalad-dataverse core against its specification

Shallow embedding of the path-mangling codec (`datalad_dataverse/utils.py`),
the DOI normalizer (`utils.py:format_doi`), the Dataverse dataset cache model
(`datalad_dataverse/dataset.py`), and the special-remote state machine
(`datalad_dataverse/baseremote.py`), together with theorems settling the
frozen claims about them.

Strings that flow through the codec are modelled as lists of Unicode
codepoints (`List Nat`), because the code does arithmetic on `ord`/`chr`.
Paths are modelled as the list of their POSIX components, mirroring
`pathlib.Path(...).parts` (components are nonempty and contain no slash;
the path `.` is the empty list).
-/

/-- Characters of `DATAVERSE_DIRNAME_SAFE` (utils.py): ASCII codepoints that
are printable and alphanumeric or one of `.`, `_`, `-`, space.  For ASCII,
`str.isprintable()` is `32 ≤ c ≤ 126` and `str.isalnum()` is digits or
letters. -/
def dirnameSafe (c : Nat) : Bool :=
  (48 ≤ c && c ≤ 57) || (65 ≤ c && c ≤ 90) || (97 ≤ c && c ≤ 122) ||
  c == 46 || c == 95 || c == 45 || c == 32

/-- Characters of `DATAVERSE_FILENAME_SAFE` (utils.py): printable ASCII
minus `/ : * ? " < > | ; #` (codes 47 58 42 63 34 60 62 124 59 35). -/
def filenameSafe (c : Nat) : Bool :=
  32 ≤ c && c ≤ 126 &&
  !(c == 47 || c == 58 || c == 42 || c == 63 || c == 34 ||
    c == 60 || c == 62 || c == 124 || c == 59 || c == 35)

/-- Uppercase hexadecimal digit character for a value below 16, as produced
by Python's `f"{n:02X}"` formatting in `_dataverse_quote`. -/
def hexDigit (d : Nat) : Nat :=
  if d < 10 then 48 + d else 55 + d

/-- `_dataverse_quote` (utils.py) applied to one character: characters that
are safe and not the escape character `-` (code 45) pass through, everything
else becomes `-<HEXCODE>` with a two-digit uppercase hexadecimal.  The
source's `verify_range` raises for codepoints above 127; in this development
the function is only applied to ASCII output of the transliteration step, so
that branch is unreachable and not modelled. -/
def quoteChar (safe : Nat → Bool) (c : Nat) : List Nat :=
  if safe c && c != 45 then [c] else [45, hexDigit (c / 16), hexDigit (c % 16)]

/-- `_dataverse_quote` (utils.py) over a whole name. -/
def quoteName (safe : Nat → Bool) (name : List Nat) : List Nat :=
  name.flatMap (quoteChar safe)

/-- `_encode_leading_dot` (utils.py): apply `TO_ENCODE = {'.': '_.', '_': '__'}`
to the first character of the (nonempty) name.  `.` is code 46, `_` is 95. -/
def encodeLeadingDot (name : List Nat) : List Nat :=
  match name with
  | [] => []
  | c :: rest =>
    if c == 46 then 95 :: 46 :: rest
    else if c == 95 then 95 :: 95 :: rest
    else c :: rest

/-- Modelled points of the third-party `unidecode` transliteration used by
`_dataverse_dirname_quote` / `_dataverse_filename_quote`: codepoints below
128 pass through unchanged (Unidecode leaves ASCII intact), `ä` (U+00E4,
code 228) transliterates to `a`; other non-ASCII codepoints are not needed
by this development and are modelled as dropped (Unidecode maps unknown
characters to the empty string). -/
def unidecodeChar (c : Nat) : List Nat :=
  if c < 128 then [c] else if c == 228 then [97] else []

/-- `unidecode` over a whole name. -/
def unidecodeName (name : List Nat) : List Nat :=
  name.flatMap unidecodeChar

/-- Codepoints of the decimal rendering of `n`, for the
`f"_not_representable_{len(dirname)}"` fallback. -/
def natDecimalCodes (n : Nat) : List Nat :=
  (Nat.toDigits 10 n).map Char.toNat

/-- Codepoints of `_not_representable_` followed by the decimal length, i.e.
the fallback name used when `unidecode` returns the empty string. -/
def notRepresentableName (n : Nat) : List Nat :=
  ([95, 110, 111, 116, 95, 114, 101, 112, 114, 101, 115, 101, 110, 116,
    97, 98, 108, 101, 95] : List Nat) ++ natDecimalCodes n

/-- `unidecode(name) or fallback`: Python's `or` takes the fallback exactly
when the transliteration is the empty string. -/
def unidecodeOrFallback (name : List Nat) : List Nat :=
  if unidecodeName name == [] then notRepresentableName name.length
  else unidecodeName name

/-- `_dataverse_dirname_quote` (utils.py): transliterate, quote against the
directory-name safe set, then encode a leading dot/underscore. -/
def dirnameQuote (dirname : List Nat) : List Nat :=
  encodeLeadingDot (quoteName dirnameSafe (unidecodeOrFallback dirname))

/-- `_dataverse_filename_quote` (utils.py): transliterate, quote against the
file-name safe set, then encode a leading dot/underscore. -/
def filenameQuote (filename : List Nat) : List Nat :=
  encodeLeadingDot (quoteName filenameSafe (unidecodeOrFallback filename))

/-- `mangle_path` (utils.py) on a path given as its component list.  The
`isDir` flag models the `Path(path).is_dir()` filesystem probe: when false
(the path does not name an existing local directory) the final component is
quoted with the file-name safe set, when true every component is quoted with
the directory-name safe set.  The empty component list models the path `.`,
whose `.name` is the empty string in the non-directory branch. -/
def mangle_path (isDir : Bool) (parts : List (List Nat)) : List (List Nat) :=
  if isDir then parts.map dirnameQuote
  else
    match parts with
    | [] => [filenameQuote []]
    | _ => (parts.dropLast).map dirnameQuote ++ [filenameQuote (parts.getLastD [])]

/-- Value of Python's `int(c, 16)` on a single ASCII character, `none` when
it raises `ValueError`.  (Python additionally accepts non-ASCII Unicode
decimal digits; the development only applies this to ASCII input.) -/
def hexVal (c : Nat) : Option Nat :=
  if 48 ≤ c && c ≤ 57 then some (c - 48)
  else if 65 ≤ c && c ≤ 70 then some (c - 55)
  else if 97 ≤ c && c ≤ 102 then some (c - 97 + 10)
  else none

/-- The character-by-character loop of `_dataverse_unquote_escaped`
(utils.py), with its `state` (0: plain, 1: saw escape, 2: saw one hex digit),
`code` accumulator and output accumulator (kept reversed).  A failing
`int(character, 16)` and a non-zero final state are the `ValueError` paths. -/
def unquoteLoop (s : List Nat) (state : Nat) (code : Nat) (acc : List Nat) :
    Except String (List Nat) :=
  match s with
  | [] => if state != 0 then .error "Dataverse quoting error" else .ok acc.reverse
  | c :: rest =>
    if state == 0 then
      if c == 45 then unquoteLoop rest 1 0 acc
      else unquoteLoop rest 0 code (c :: acc)
    else if state == 1 then
      match hexVal c with
      | none => .error "Dataverse quoting error"
      | some v => unquoteLoop rest 2 (16 * v) acc
    else
      match hexVal c with
      | none => .error "Dataverse quoting error"
      | some v => unquoteLoop rest 0 0 ((code + v) :: acc)

/-- `_dataverse_unquote_escaped` (utils.py) with escape character `-`. -/
def unquoteEscaped (s : List Nat) : Except String (List Nat) :=
  unquoteLoop s 0 0 []

/-- The `TO_DECODE` prefix step of `_dataverse_unquote` (utils.py): an
initial `_.` becomes `.`, an initial `__` becomes `_`. -/
def decodeLeadingDot (s : List Nat) : List Nat :=
  match s with
  | a :: b :: rest =>
    if a == 95 && b == 46 then 46 :: rest
    else if a == 95 && b == 95 then 95 :: rest
    else a :: b :: rest
  | _ => s

/-- `_dataverse_unquote` (utils.py): revert the leading-dot encoding, then
the escape quoting. -/
def dataverseUnquote (s : List Nat) : Except String (List Nat) :=
  unquoteEscaped (decodeLeadingDot s)

/-- `unmangle_path` (utils.py) on a component list: unquote every component;
a `ValueError` from any component propagates. -/
def unmangle_path (parts : List (List Nat)) : Except String (List (List Nat)) :=
  parts.mapM dataverseUnquote

/-- A component list is ASCII-clean when every component is nonempty and all
its codepoints are below 128. -/
def asciiParts (parts : List (List Nat)) : Prop :=
  ∀ q ∈ parts, q ≠ [] ∧ ∀ c ∈ q, c < 128

instance : DecidablePred asciiParts := by
  intro parts
  unfold asciiParts
  infer_instance

/-!
## Dataset cache model (`datalad_dataverse/dataset.py`)
-/

/-- A `PurePosixPath` built as `PurePosixPath(directoryLabel) / name`, kept
as the pair of its two constituents (no claim inspects the joined form). -/
structure PPath where
  dir : String
  name : String
deriving DecidableEq

/-- `FileIdRecord` (dataset.py): what the cache holds for one database file
id. -/
structure FileIdRecord where
  path : PPath
  is_released : Bool
  is_latest_version : Bool
deriving DecidableEq

/-- The `_file_records` cache of `OnlineDataverseDataset`, as a map from
database file ids to records. -/
def RecordMap : Type := Nat → Option FileIdRecord

/-- `OnlineDataverseDataset.is_released_file` (dataset.py): `False` when the
id has no record. -/
def ods_is_released_file (records : RecordMap) (fid : Nat) : Bool :=
  match records fid with
  | none => false
  | some rec => rec.is_released

/-- `OnlineDataverseDataset.has_fileid_in_latest_version` (dataset.py). -/
def ods_has_fileid_in_latest_version (records : RecordMap) (fid : Nat) : Bool :=
  match records fid with
  | none => false
  | some rec => rec.is_latest_version

/-- Cache effect of a successful `OnlineDataverseDataset.remove_file`
(dataset.py): after the HTTP delete succeeds, the record of `fid` is
unconditionally popped (`self._file_records_by_fileid.pop(fid, None)`). -/
def ods_remove_file (records : RecordMap) (fid : Nat) : RecordMap :=
  fun k => if k = fid then none else records k

/-- Cache effect of a successful `OnlineDataverseDataset.upload_file`
(dataset.py): when replacing, the replaced id's record is unconditionally
popped; the uploaded id is recorded with `is_released=False`,
`is_latest_version=True`.  `uploadedId`/`uploadedPath` are the
`dataFile.id` and `directoryLabel`/`filename` echoed by the server. -/
def ods_upload_file (records : RecordMap) (replaceId : Option Nat)
    (uploadedId : Nat) (uploadedPath : PPath) : RecordMap :=
  let afterPop : RecordMap :=
    match replaceId with
    | some rid => fun k => if k = rid then none else records k
    | none => records
  fun k => if k = uploadedId then some ⟨uploadedPath, false, true⟩ else afterPop k

/-!
## Special-remote state machine (`datalad_dataverse/baseremote.py`)

The state is restricted to what the claims quantify over: the dataset cache
and the annex key→fileid binding set of the one key under consideration
(`_get/_add/_remove_annex_fileid_record` on that key).
-/

/-- State of the special remote relevant to one annex key: the dataset cache
and the set of file ids bound to the key. -/
structure RemState where
  dv : RecordMap
  bound : Nat → Bool

/-- Python exceptions that the modelled verb handlers can raise. -/
inductive PyExc where
  | httpError
  | attributeError
  | remoteError
deriving DecidableEq

/-- Result of one verb helper: normal return or an exception; both carry the
state, since `self._dvds` mutations survive a raised exception. -/
inductive StepResult where
  | ok (s : RemState)
  | exc (e : PyExc) (s : RemState)

/-- The state carried by a step result. -/
def stepState : StepResult → RemState
  | .ok s => s
  | .exc _ s => s

/-- The exception carried by a step result, if any. -/
def stepExc : StepResult → Option PyExc
  | .ok _ => none
  | .exc e _ => some e

/-- Server response to the upload/replace request issued by
`OnlineDataverseDataset.upload_file`: either a success carrying the new
database file id and its echoed path, or an `HTTPError` with the response's
status code, whether the JSON body has `status == "ERROR"`, and whether its
`message` contains `"duplicate content"`. -/
inductive UploadOutcome where
  | uploaded (newId : Nat) (newPath : PPath)
  | httpErr (status : Nat) (jsonStatusIsError : Bool) (msgHasDuplicateContent : Bool)

/-- `DataverseRemote._upload_file` (baseremote.py): on an `HTTPError` whose
status code is 400 with JSON `status == "ERROR"` and `"duplicate content"`
in the message, return with nothing changed; on any other `HTTPError`,
re-raise.  On success, the dataset cache is updated by
`OnlineDataverseDataset.upload_file`; then, when a replace id was given, the
code evaluates `self.is_released_file(replace_id)` — but `DataverseRemote`
and its base class define no attribute `is_released_file` (the sibling
`_remove_file` spells it `self._dvds.is_released_file`), so the attribute
access raises `AttributeError` before any binding is touched.  Without a
replace id, the uploaded id is bound to the key. -/
def upload_file_step (st : RemState) (replaceId : Option Nat)
    (outcome : UploadOutcome) : StepResult :=
  match outcome with
  | .httpErr status isErr hasDup =>
    if status == 400 && isErr && hasDup then .ok st
    else .exc .httpError st
  | .uploaded newId newPath =>
    let st1 : RemState := { st with dv := ods_upload_file st.dv replaceId newId newPath }
    match replaceId with
    | some _ => .exc .attributeError st1
    | none => .ok { st1 with bound := fun k => k == newId || st1.bound k }

/-- Server response to the SWORD delete request issued by
`OnlineDataverseDataset.remove_file`. -/
inductive RemoveOutcome where
  | deleted
  | httpErr

/-- `DataverseRemote._remove_file` (baseremote.py) for one candidate id:
`None` and ids outside the latest version return unchanged; a failing
delete raises `RemoteError` (before the cache is touched); after a
successful delete the cache record was popped by
`OnlineDataverseDataset.remove_file`, and the binding is dropped when
`self._dvds.is_released_file(rm_id)` — evaluated against the already-popped
cache — is false. -/
def remove_file_step (st : RemState) (rmId : Option Nat)
    (outcome : RemoveOutcome) : StepResult :=
  match rmId with
  | none => .ok st
  | some fid =>
    if !ods_has_fileid_in_latest_version st.dv fid then .ok st
    else
      match outcome with
      | .httpErr => .exc .remoteError st
      | .deleted =>
        let st1 : RemState := { st with dv := ods_remove_file st.dv fid }
        if !ods_is_released_file st1.dv fid then
          .ok { st1 with bound := fun k => if k = fid then false else st1.bound k }
        else .ok st1

/-!
## All-versions cache expansion (`dataset.py`)
-/

/-- One entry of a version's `files` listing: the `dataFile.id`, the
`directoryLabel` (`""` models an absent key, mirroring
`f.get('directoryLabel', '')`), and the `dataFile.filename`. -/
structure DvFile where
  id : Nat
  directoryLabel : String
  filename : String
deriving DecidableEq

/-- One entry of the `get_dataset_versions` listing: optional major and
minor version numbers (`None` for a DRAFT), the `versionState` string, and
the files of that version. -/
structure DvVersion where
  versionNumber : Option Nat
  versionMinorNumber : Option Nat
  versionState : String
  files : List DvFile
deriving DecidableEq

/-- Python's `sys.maxsize` on a 64-bit platform, the default used by
`v.get('versionNumber') or sys.maxsize`. -/
def pyMaxsize : Nat := 9223372036854775807

/-- Python's `value or sys.maxsize`: the default is taken for `None` and for
the falsy number `0`. -/
def orMaxsize (o : Option Nat) : Nat :=
  match o with
  | none => pyMaxsize
  | some n => if n = 0 then pyMaxsize else n

/-- The sort key of `_ensure_file_records_for_all_versions` (dataset.py):
`(versionNumber or maxsize, versionMinorNumber or maxsize)`, compared as a
Python tuple (lexicographically). -/
def versionKey (v : DvVersion) : Nat × Nat :=
  (orMaxsize v.versionNumber, orMaxsize v.versionMinorNumber)

/-- Lexicographic order on sort keys, as Python compares tuples. -/
def keyLE (p q : Nat × Nat) : Prop :=
  p.1 < q.1 ∨ (p.1 = q.1 ∧ p.2 ≤ q.2)

instance : DecidableRel keyLE := by
  intro p q
  unfold keyLE
  infer_instance

/-- Pointwise order on versions induced by their sort keys. -/
def versionLE (a b : DvVersion) : Prop :=
  keyLE (versionKey a) (versionKey b)

/-- Stable insertion into an ascending list, keeping an inserted element
that was originally earlier in front of key-equal elements. -/
def insertVersion (x : DvVersion) : List DvVersion → List DvVersion
  | [] => [x]
  | y :: ys =>
    if keyLE (versionKey x) (versionKey y) then x :: y :: ys
    else y :: insertVersion x ys

/-- Stable ascending sort by `versionKey`.  `list.sort` in Python is a
stable ascending sort by the key function; any stable ascending sort
computes the same list, so insertion sort is used here. -/
def sortVersions : List DvVersion → List DvVersion
  | [] => []
  | x :: xs => insertVersion x (sortVersions xs)

/-- `_get_file_records_from_version_listing` (dataset.py) as the entry list
of the dict comprehension: one `(id, FileIdRecord)` pair per listed file,
with `is_released = (versionState == "RELEASED")` and the given `latest`
flag. -/
def versionEntries (v : DvVersion) (latest : Bool) : List (Nat × FileIdRecord) :=
  v.files.map (fun f =>
    (f.id, ⟨⟨f.directoryLabel, f.filename⟩, decide (v.versionState = "RELEASED"), latest⟩))

/-- Sequential dict insertion with overwrite: both the dict comprehension in
`_get_file_records_from_version_listing` and `dict.update` in
`_ensure_file_records_for_all_versions` make the later entry win. -/
def dictUpdate (m : RecordMap) (entries : List (Nat × FileIdRecord)) : RecordMap :=
  entries.foldl (fun acc e => fun k => if k = e.1 then some e.2 else acc k) m

/-- `_ensure_file_records_for_all_versions` (dataset.py): sort the versions
ascending by key, insert the records of every version but the last with
`latest=False`, then overwrite with the last version's records with
`latest=True`.  (On an empty version list the source would raise an
`IndexError` at `dataset_versions[-1]`; that case is unreachable for the
claims, which assume a DRAFT version is present.) -/
def expandAllVersions (vs : List DvVersion) : RecordMap :=
  let sorted := sortVersions vs
  let base :=
    (sorted.dropLast).foldl (fun m v => dictUpdate m (versionEntries v false))
      (fun _ => none)
  match sorted.getLast? with
  | none => base
  | some vlast => dictUpdate base (versionEntries vlast true)

/-- The database file ids listed in a version. -/
def idsOf (v : DvVersion) : List Nat :=
  v.files.map (fun f => f.id)

/-!
## DOI normalizer (`utils.py:format_doi`)
-/

/-- The possible `doi_in` arguments of `format_doi`: `None`, a string
(codepoint list), or a value of any other type. -/
inductive PyInput where
  | pyNone
  | pyStr (s : List Nat)
  | pyOther

/-- The exceptions raised by `format_doi`. -/
inductive PyErr where
  | valueError
  | typeError
deriving DecidableEq

/-- Boolean prefix test on codepoint lists (the anchored `re.match` of
`format_doi` is a literal prefix test). -/
def isPfxOf : List Nat → List Nat → Bool
  | [], _ => true
  | _ :: _, [] => false
  | a :: as, b :: bs => a == b && isPfxOf as bs

/-- Codepoints of `doi:`. -/
def doiPfx : List Nat := [100, 111, 105, 58]

/-- Codepoints of `https://doi.org/`. -/
def httpsDoiPfx : List Nat :=
  [104, 116, 116, 112, 115, 58, 47, 47, 100, 111, 105, 46, 111, 114, 103, 47]

/-- Codepoints of `http://doi.org/`. -/
def httpDoiPfx : List Nat :=
  [104, 116, 116, 112, 58, 47, 47, 100, 111, 105, 46, 111, 114, 103, 47]

/-- `format_doi` (utils.py): `None` → `ValueError`, non-string →
`TypeError`, empty string → `ValueError`; a string starting `doi:` is
returned unchanged; a `http(s)://doi.org/` prefix is replaced by `doi:`
(the `re.sub` pattern is anchored, so it rewrites only the prefix);
otherwise `doi:` is prepended. -/
def format_doi : PyInput → Except PyErr (List Nat)
  | .pyNone => .error .valueError
  | .pyOther => .error .typeError
  | .pyStr s =>
    if s.length = 0 then .error .valueError
    else if isPfxOf doiPfx s then .ok s
    else if isPfxOf httpsDoiPfx s then .ok (doiPfx ++ s.drop 16)
    else if isPfxOf httpDoiPfx s then .ok (doiPfx ++ s.drop 15)
    else .ok (doiPfx ++ s)

/-!
## Well-formedness of escaped names (for the decode-error claim)
-/

/-- A (codepoint) string is escape-well-formed when every occurrence of the
escape character `-` (scanned left to right) is followed by two characters
accepted by `int(·, 16)`. -/
def escapeWellFormed : List Nat → Bool
  | [] => true
  | c :: rest =>
    if c == 45 then
      match rest with
      | h1 :: h2 :: rest2 => (hexVal h1).isSome && (hexVal h2).isSome && escapeWellFormed rest2
      | _ => false
    else escapeWellFormed rest

/-- Whether an `Except` result is a normal return (a raised exception is the
`false` case). -/
def exceptIsOk (x : Except String (List Nat)) : Bool :=
  match x with
  | .ok _ => true
  | .error _ => false

/-!
## Concrete fixtures used by the evaluation theorems
-/

/-- A record of a file that is part of a released version and of the latest
version (a released latest version, i.e. no draft exists yet). -/
def sampleReleasedRecord : FileIdRecord :=
  ⟨⟨"subdir2", "third_file.md"⟩, true, true⟩

/-- A cache holding the single released record under file id 5. -/
def sampleRecords : RecordMap :=
  fun k => if k = 5 then some sampleReleasedRecord else none

/-- A remote state whose key has file id 5 bound. -/
def sampleState : RemState :=
  ⟨sampleRecords, fun k => k == 5⟩

/-- The remote path echoed by the server for an upload. -/
def samplePath : PPath := ⟨"annex", "key1"⟩

/-- A DRAFT version with null version numbers listing file id 7. -/
def sampleDraft : DvVersion :=
  ⟨none, none, "DRAFT", [⟨7, "", "a.txt"⟩]⟩

/-- A released version `1.0` listing file id 5. -/
def sampleReleasedVersion : DvVersion :=
  ⟨some 1, some 0, "RELEASED", [⟨5, "", "old.txt"⟩]⟩

/-- A two-version listing, deliberately unsorted on arrival. -/
def sampleVersions : List DvVersion :=
  [sampleDraft, sampleReleasedVersion]

/-!
## Theorems
-/

/-- C2: on a successful TRANSFER STORE that replaced an existing file id
(`replace_id ≠ None`), `DataverseRemote._upload_file` evaluates
`self.is_released_file(replace_id)` (baseremote.py:354), an attribute that
`DataverseRemote` does not have, so an `AttributeError` is raised: the old
id 5 is never unbound and the uploaded id 7 is never bound.  The
no-replace path does bind the uploaded id. -/
theorem c2_replace_attribute_error :
    stepExc (upload_file_step sampleState (some 5) (.uploaded 7 samplePath))
      = some .attributeError
    ∧ (stepState (upload_file_step sampleState (some 5) (.uploaded 7 samplePath))).bound 5
      = true
    ∧ (stepState (upload_file_step sampleState (some 5) (.uploaded 7 samplePath))).bound 7
      = false
    ∧ stepExc (upload_file_step sampleState none (.uploaded 7 samplePath)) = none
    ∧ (stepState (upload_file_step sampleState none (.uploaded 7 samplePath))).bound 7
      = true := by
  refine ⟨rfl, rfl, rfl, rfl, rfl⟩

/-- C3: `OnlineDataverseDataset.upload_file` with `replace_id=5` and
`OnlineDataverseDataset.remove_file(5)` pop the cache record of id 5
unconditionally, although id 5 is recorded as part of a released version —
the claim (and spec invariants 4/5) require the record to be retained with
`is_latest_version=false` in that case. -/
theorem c3_cache_eviction_unconditional :
    sampleRecords 5 = some sampleReleasedRecord
    ∧ sampleReleasedRecord.is_released = true
    ∧ (ods_upload_file sampleRecords (some 5) 7 samplePath) 5 = none
    ∧ (ods_remove_file sampleRecords 5) 5 = none := by
  refine ⟨rfl, rfl, rfl, rfl⟩

/-- C4: REMOVE of a released file id that is in the latest version succeeds
and drops the binding: `OnlineDataverseDataset.remove_file` pops the cache
record before `DataverseRemote._remove_file` consults
`self._dvds.is_released_file(rm_id)`, so the released-file check
(baseremote.py:388) always sees a missing record and answers `False` — the
claim says released ids remain bound. -/
theorem c4_remove_always_unbinds :
    sampleState.dv 5 = some sampleReleasedRecord
    ∧ sampleReleasedRecord.is_released = true
    ∧ sampleState.bound 5 = true
    ∧ stepExc (remove_file_step sampleState (some 5) .deleted) = none
    ∧ (stepState (remove_file_step sampleState (some 5) .deleted)).bound 5 = false := by
  refine ⟨rfl, rfl, rfl, rfl, rfl⟩

/-- C6 counterexample: an `HTTPError` whose JSON body has `status ==
"ERROR"` and `"duplicate content"` in the message, but whose status code is
409 rather than 400, is re-raised by `DataverseRemote._upload_file`
(baseremote.py:327 tests `status_code == 400`), so the verb fails — the
claim says every such response is treated as success. -/
theorem c6_duplicate_content_non400_counterexample :
    stepExc (upload_file_step sampleState none (.httpErr 409 true true))
      = some .httpError := by
  rfl

/-- C6 (amended): on an `HTTPError` with status code 400 whose JSON body
has `status == "ERROR"` and a message containing `"duplicate content"`,
`DataverseRemote._upload_file` returns without raising and the whole state
— in particular every key-to-fileid binding — is left unchanged. -/
theorem c6_duplicate_content_400 (st : RemState) (replaceId : Option Nat) :
    upload_file_step st replaceId (.httpErr 400 true true) = .ok st := by
  rfl

/-- C10: `mangle_path` consults the local filesystem (`Path(path).is_dir()`)
to decide whether the last component is quoted with the file-name safe set:
the single-component path `(a` (codes 40, 97) mangles to itself when no
such local directory exists, but to `-28a` when it does, so the same path
string mangles differently under different filesystem states. -/
theorem c10_mangle_depends_on_filesystem :
    mangle_path true [[40, 97]] = [[45, 50, 56, 97]]
    ∧ mangle_path false [[40, 97]] = [[40, 97]]
    ∧ mangle_path true [[40, 97]] ≠ mangle_path false [[40, 97]] := by
  refine ⟨rfl, rfl, by decide⟩

/-- C1 counterexample: the path `ä` (codepoint 228) is transliterated to
`a` by `unidecode` inside `mangle_path`, so the round trip returns `a`,
not `ä` — the claim quantifies over all paths of valid Unicode scalars. -/
theorem c1_roundtrip_counterexample :
    unmangle_path (mangle_path false [[228]]) = .ok [[97]]
    ∧ [[97]] ≠ [[228]] := by
  refine ⟨rfl, by decide⟩

/-- C5 counterexample: the component ` x` (codes 32, 120) mangles to
itself — a leading space is not prefixed as `_ ` and the mangled component
begins with a space — and the component `-x` mangles to `-2Dx`, which
begins with `-`; the claim's prefix table and its "no component begins
with `.`, `-` or ` `" conclusion are both violated. -/
theorem c5_leading_space_counterexample :
    mangle_path true [[32, 120]] = [[32, 120]]
    ∧ mangle_path true [[45, 120]] = [[45, 50, 68, 120]] := by
  refine ⟨rfl, rfl⟩

/-- Unfolding equation of `escapeWellFormed` on a cons cell. -/
theorem escapeWellFormed_cons (c : Nat) (l : List Nat) :
    escapeWellFormed (c :: l)
      = if c == 45 then
          (match l with
           | h1 :: h2 :: r2 =>
             (hexVal h1).isSome && (hexVal h2).isSome && escapeWellFormed r2
           | _ => false)
        else escapeWellFormed l := by
  cases l with
  | nil => rfl
  | cons a t =>
    cases t with
    | nil => rfl
    | cons b t2 => rfl

/-- The `_dataverse_unquote_escaped` state machine rejects every string that
is not escape-well-formed, at any start accumulator. -/
theorem unquoteLoop_error_of_malformed :
    ∀ (n : Nat) (s : List Nat), s.length ≤ n → ∀ (code : Nat) (acc : List Nat),
      escapeWellFormed s = false → exceptIsOk (unquoteLoop s 0 code acc) = false := by
  intro n
  induction n with
  | zero =>
    intro s hs code acc hwf
    rw [Nat.le_zero, List.length_eq_zero] at hs
    subst hs
    simp [escapeWellFormed] at hwf
  | succ n ih =>
    intro s hs code acc hwf
    cases s with
    | nil => simp [escapeWellFormed] at hwf
    | cons c rest =>
      by_cases hc : c = 45
      · subst hc
        rw [show unquoteLoop (45 :: rest) 0 code acc = unquoteLoop rest 1 0 acc from rfl]
        cases rest with
        | nil => rfl
        | cons h1 r1 =>
          rw [show unquoteLoop (h1 :: r1) 1 0 acc
                = match hexVal h1 with
                  | none => Except.error "Dataverse quoting error"
                  | some v => unquoteLoop r1 2 (16 * v) acc from rfl]
          cases hv1 : hexVal h1 with
          | none => simp [exceptIsOk]
          | some v1 =>
            show exceptIsOk (unquoteLoop r1 2 (16 * v1) acc) = false
            cases r1 with
            | nil => rfl
            | cons h2 r2 =>
              rw [show unquoteLoop (h2 :: r2) 2 (16 * v1) acc
                    = match hexVal h2 with
                      | none => Except.error "Dataverse quoting error"
                      | some v => unquoteLoop r2 0 0 ((16 * v1 + v) :: acc) from rfl]
              cases hv2 : hexVal h2 with
              | none => simp [exceptIsOk]
              | some v2 =>
                show exceptIsOk (unquoteLoop r2 0 0 ((16 * v1 + v2) :: acc)) = false
                have hwf2 : escapeWellFormed r2 = false := by
                  simp [escapeWellFormed, hv1, hv2] at hwf
                  exact hwf
                have hlen : r2.length ≤ n := by
                  simp [List.length_cons] at hs
                  omega
                exact ih r2 hlen 0 ((16 * v1 + v2) :: acc) hwf2
      · have hcb : (c == 45) = false := by simp [hc]
        rw [show unquoteLoop (c :: rest) 0 code acc
              = if c == 45 then unquoteLoop rest 1 0 acc
                else unquoteLoop rest 0 code (c :: acc) from rfl]
        rw [hcb]
        simp only [Bool.false_eq_true, if_false]
        rw [escapeWellFormed_cons, hcb] at hwf
        simp only [Bool.false_eq_true, if_false] at hwf
        have hlen : rest.length ≤ n := by
          simp [List.length_cons] at hs
          omega
        exact ih rest hlen code (c :: acc) hwf

/-- C8: decoding a string that contains a malformed escape sequence (an
escape character `-` not followed by two hexadecimal digits) raises
`ValueError` in `_dataverse_unquote_escaped` instead of returning a value.
(The ASCII hypothesis pins the domain on which the model of `int(c, 16)` is
exact.) -/
theorem c8_malformed_escape_errors (s : List Nat)
    (hascii : ∀ c ∈ s, c < 128)
    (hmal : escapeWellFormed s = false) :
    exceptIsOk (unquoteEscaped s) = false :=
  unquoteLoop_error_of_malformed s.length s (Nat.le_refl _) 0 [] hmal

/-- Witness for C8 at the concrete malformed input `-`. -/
theorem c8_malformed_escape_errors_witness :
    (∀ c ∈ ([45] : List Nat), c < 128)
    ∧ escapeWellFormed [45] = false
    ∧ exceptIsOk (unquoteEscaped [45]) = false :=
  ⟨by decide, by decide, c8_malformed_escape_errors [45] (by decide) (by decide)⟩

/-- A list is a prefix of itself followed by anything. -/
theorem isPfxOf_append_self : ∀ (p t : List Nat), isPfxOf p (p ++ t) = true := by
  intro p
  induction p with
  | nil => intro t; rfl
  | cons a as ih =>
    intro t
    simp [isPfxOf, ih t]

/-- A successful prefix test decomposes the string as the prefix followed by
the rest. -/
theorem isPfxOf_eq_append : ∀ (p s : List Nat), isPfxOf p s = true → s = p ++ s.drop p.length := by
  intro p
  induction p with
  | nil => intro s _; simp
  | cons a as ih =>
    intro s h
    cases s with
    | nil => simp [isPfxOf] at h
    | cons b bs =>
      simp only [isPfxOf, Bool.and_eq_true, beq_iff_eq] at h
      obtain ⟨rfl, h2⟩ := h
      have := ih bs h2
      simp [List.length_cons, List.drop_succ_cons]
      exact this

/-- C9: `format_doi` rejects `None`, non-strings and the empty string with
an error; on every nonempty string it accepts the three shapes (`doi:X`,
`https?://doi.org/X`, bare `X`) and emits a `doi:`-prefixed result; and it
is idempotent on every accepted input. -/
theorem c9_format_doi :
    format_doi .pyNone = .error .valueError
    ∧ format_doi .pyOther = .error .typeError
    ∧ format_doi (.pyStr []) = .error .valueError
    ∧ ∀ s : List Nat, s ≠ [] →
        (isPfxOf doiPfx s = true → format_doi (.pyStr s) = .ok s)
        ∧ (isPfxOf httpsDoiPfx s = true →
            format_doi (.pyStr s) = .ok (doiPfx ++ s.drop 16))
        ∧ (isPfxOf httpDoiPfx s = true →
            format_doi (.pyStr s) = .ok (doiPfx ++ s.drop 15))
        ∧ (isPfxOf doiPfx s = false → isPfxOf httpsDoiPfx s = false →
            isPfxOf httpDoiPfx s = false →
            format_doi (.pyStr s) = .ok (doiPfx ++ s))
        ∧ (∃ t, format_doi (.pyStr s) = .ok (doiPfx ++ t))
        ∧ (∀ out, format_doi (.pyStr s) = .ok out →
            format_doi (.pyStr out) = .ok out) := by
  refine ⟨rfl, rfl, rfl, ?_⟩
  intro s hne
  have hlen : ¬ s.length = 0 := by
    simpa [List.length_eq_zero] using hne
  have case_doi : isPfxOf doiPfx s = true → format_doi (.pyStr s) = .ok s := by
    intro h
    simp [format_doi, hlen, h]
  have case_https : isPfxOf httpsDoiPfx s = true →
      format_doi (.pyStr s) = .ok (doiPfx ++ s.drop 16) := by
    intro h
    have hsplit := isPfxOf_eq_append httpsDoiPfx s h
    have hdoi : isPfxOf doiPfx s = false := by
      rw [hsplit]; rfl
    simp [format_doi, hlen, hdoi, h]
  have case_http : isPfxOf httpDoiPfx s = true →
      format_doi (.pyStr s) = .ok (doiPfx ++ s.drop 15) := by
    intro h
    have hsplit := isPfxOf_eq_append httpDoiPfx s h
    have hdoi : isPfxOf doiPfx s = false := by
      rw [hsplit]; rfl
    have hhttps : isPfxOf httpsDoiPfx s = false := by
      rw [hsplit]; rfl
    simp [format_doi, hlen, hdoi, hhttps, h]
  have case_bare : isPfxOf doiPfx s = false → isPfxOf httpsDoiPfx s = false →
      isPfxOf httpDoiPfx s = false → format_doi (.pyStr s) = .ok (doiPfx ++ s) := by
    intro h1 h2 h3
    simp [format_doi, hlen, h1, h2, h3]
  have emits : ∃ t, format_doi (.pyStr s) = .ok (doiPfx ++ t) := by
    cases hd : isPfxOf doiPfx s with
    | true =>
      refine ⟨s.drop 4, ?_⟩
      rw [case_doi hd]
      have := isPfxOf_eq_append doiPfx s hd
      exact congrArg Except.ok this
    | false =>
      cases hh : isPfxOf httpsDoiPfx s with
      | true => exact ⟨s.drop 16, case_https hh⟩
      | false =>
        cases hp : isPfxOf httpDoiPfx s with
        | true => exact ⟨s.drop 15, case_http hp⟩
        | false => exact ⟨s, case_bare hd hh hp⟩
  refine ⟨case_doi, case_https, case_http, case_bare, emits, ?_⟩
  intro out hout
  obtain ⟨t, ht⟩ := emits
  rw [ht] at hout
  have hout2 : out = doiPfx ++ t := by
    injection hout with h
    exact h.symm
  subst hout2
  show format_doi (.pyStr (doiPfx ++ t)) = .ok (doiPfx ++ t)
  have hc : isPfxOf doiPfx (doiPfx ++ t) = true := isPfxOf_append_self doiPfx t
  simp only [format_doi]
  rw [if_neg (show ¬ (doiPfx ++ t).length = 0 by simp [doiPfx])]
  simp [hc]

/-- Witness for C9 at the bare input `1` (code 49). -/
theorem c9_format_doi_witness :
    ([49] : List Nat) ≠ []
    ∧ format_doi (.pyStr [49]) = .ok (doiPfx ++ [49])
    ∧ format_doi (.pyStr (doiPfx ++ [49])) = .ok (doiPfx ++ [49]) := by
  have h := c9_format_doi.2.2.2 [49] (by decide)
  refine ⟨by decide, ?_, ?_⟩
  · exact h.2.2.2.1 (by decide) (by decide) (by decide)
  · exact h.2.2.2.2.2 (doiPfx ++ [49]) (h.2.2.2.1 (by decide) (by decide) (by decide))

/-- `int(·, 16)` inverts the uppercase hex-digit rendering below 16. -/
theorem hexVal_hexDigit (d : Nat) (h : d < 16) : hexVal (hexDigit d) = some d := by
  interval_cases d <;> rfl

/-- The decoder state machine consumes the quoted rendering of an ASCII name
character by character, appending the original characters to the
accumulator. -/
theorem unquoteLoop_quoteName (safe : Nat → Bool) :
    ∀ (q : List Nat), (∀ c ∈ q, c < 128) → ∀ (code : Nat) (acc : List Nat),
      unquoteLoop (quoteName safe q) 0 code acc = .ok (acc.reverse ++ q) := by
  intro q
  induction q with
  | nil =>
    intro _ code acc
    simp [quoteName, unquoteLoop]
  | cons c q2 ih =>
    intro hascii code acc
    have hc : c < 128 := hascii c (List.mem_cons_self c q2)
    have hascii2 : ∀ x ∈ q2, x < 128 := fun x hx => hascii x (List.mem_cons_of_mem c hx)
    rw [quoteName, List.flatMap_cons]
    by_cases hsafe : (safe c && c != 45) = true
    · have hq : quoteChar safe c = [c] := by simp [quoteChar, hsafe]
      have hne45 : (c == 45) = false := by
        rcases Bool.and_eq_true_iff.mp hsafe with ⟨_, h2⟩
        simpa [bne] using h2
      rw [hq]
      rw [show ([c] ++ q2.flatMap (quoteChar safe)) = c :: q2.flatMap (quoteChar safe) from rfl]
      rw [show unquoteLoop (c :: q2.flatMap (quoteChar safe)) 0 code acc
            = if c == 45 then unquoteLoop (q2.flatMap (quoteChar safe)) 1 0 acc
              else unquoteLoop (q2.flatMap (quoteChar safe)) 0 code (c :: acc) from rfl]
      rw [hne45]
      simp only [Bool.false_eq_true, if_false]
      rw [show q2.flatMap (quoteChar safe) = quoteName safe q2 from rfl]
      rw [ih hascii2 code (c :: acc)]
      simp
    · have hq : quoteChar safe c = [45, hexDigit (c / 16), hexDigit (c % 16)] := by
        simp only [quoteChar, hsafe]
        rw [if_neg]
        simp [hsafe]
      rw [hq]
      simp only [List.cons_append, List.nil_append]
      have hhi : hexVal (hexDigit (c / 16)) = some (c / 16) :=
        hexVal_hexDigit (c / 16) (by omega)
      have hlo : hexVal (hexDigit (c % 16)) = some (c % 16) :=
        hexVal_hexDigit (c % 16) (by omega)
      rw [show unquoteLoop
            (45 :: hexDigit (c / 16) :: hexDigit (c % 16) :: q2.flatMap (quoteChar safe))
            0 code acc
          = unquoteLoop (hexDigit (c / 16) :: hexDigit (c % 16) :: q2.flatMap (quoteChar safe))
            1 0 acc from rfl]
      rw [show unquoteLoop
            (hexDigit (c / 16) :: hexDigit (c % 16) :: q2.flatMap (quoteChar safe)) 1 0 acc
          = match hexVal (hexDigit (c / 16)) with
            | none => Except.error "Dataverse quoting error"
            | some v => unquoteLoop (hexDigit (c % 16) :: q2.flatMap (quoteChar safe))
                2 (16 * v) acc from rfl]
      rw [hhi]
      rw [show (match some (c / 16) with
            | none => Except.error "Dataverse quoting error"
            | some v => unquoteLoop (hexDigit (c % 16) :: q2.flatMap (quoteChar safe))
                2 (16 * v) acc)
          = unquoteLoop (hexDigit (c % 16) :: q2.flatMap (quoteChar safe))
              2 (16 * (c / 16)) acc from rfl]
      rw [show unquoteLoop (hexDigit (c % 16) :: q2.flatMap (quoteChar safe))
              2 (16 * (c / 16)) acc
          = match hexVal (hexDigit (c % 16)) with
            | none => Except.error "Dataverse quoting error"
            | some v => unquoteLoop (q2.flatMap (quoteChar safe))
                0 0 ((16 * (c / 16) + v) :: acc) from rfl]
      rw [hlo]
      rw [show (match some (c % 16) with
            | none => Except.error "Dataverse quoting error"
            | some v => unquoteLoop (q2.flatMap (quoteChar safe))
                0 0 ((16 * (c / 16) + v) :: acc))
          = unquoteLoop (q2.flatMap (quoteChar safe))
              0 0 ((16 * (c / 16) + c % 16) :: acc) from rfl]
      rw [Nat.div_add_mod c 16]
      rw [show q2.flatMap (quoteChar safe) = quoteName safe q2 from rfl]
      rw [ih hascii2 0 (c :: acc)]
      simp

/-- Full decoder inversion of the quoting stage on ASCII names. -/
theorem unquoteEscaped_quoteName (safe : Nat → Bool) (q : List Nat)
    (hascii : ∀ c ∈ q, c < 128) :
    unquoteEscaped (quoteName safe q) = .ok q := by
  rw [unquoteEscaped, unquoteLoop_quoteName safe q hascii 0 []]
  rfl

/-- The `TO_DECODE` prefix step inverts the `TO_ENCODE` prefix step on any
nonempty name. -/
theorem decodeLeadingDot_encodeLeadingDot (s : List Nat) (hne : s ≠ []) :
    decodeLeadingDot (encodeLeadingDot s) = s := by
  cases s with
  | nil => exact absurd rfl hne
  | cons c r =>
    by_cases h46 : c = 46
    · subst h46
      rfl
    · by_cases h95 : c = 95
      · subst h95
        rfl
      · have hb46 : (c == 46) = false := by simp [h46]
        have hb95 : (c == 95) = false := by simp [h95]
        rw [show encodeLeadingDot (c :: r)
              = if c == 46 then 95 :: 46 :: r
                else if c == 95 then 95 :: 95 :: r
                else c :: r from rfl]
        rw [hb46, hb95]
        simp only [Bool.false_eq_true, if_false]
        cases r with
        | nil => rfl
        | cons b t =>
          rw [show decodeLeadingDot (c :: b :: t)
                = if c == 95 && b == 46 then 46 :: t
                  else if c == 95 && b == 95 then 95 :: t
                  else c :: b :: t from rfl]
          rw [hb95]
          rfl

/-- Quoting a nonempty name yields a nonempty string. -/
theorem quoteName_ne_nil (safe : Nat → Bool) (q : List Nat) (hne : q ≠ []) :
    quoteName safe q ≠ [] := by
  cases q with
  | nil => exact absurd rfl hne
  | cons c r =>
    rw [quoteName, List.flatMap_cons]
    have : quoteChar safe c ≠ [] := by
      rw [quoteChar]
      by_cases h : (safe c && c != 45) = true <;> simp [h]
    intro hcontra
    rcases List.append_eq_nil.mp hcontra with ⟨h1, _⟩
    exact this h1

/-- `unidecode` is the identity on ASCII names. -/
theorem unidecodeName_ascii (q : List Nat) (hascii : ∀ c ∈ q, c < 128) :
    unidecodeName q = q := by
  induction q with
  | nil => rfl
  | cons c r ih =>
    have hc : c < 128 := hascii c (List.mem_cons_self c r)
    rw [unidecodeName, List.flatMap_cons]
    rw [show unidecodeChar c = [c] by simp [unidecodeChar, hc]]
    rw [show r.flatMap unidecodeChar = unidecodeName r from rfl]
    rw [ih (fun x hx => hascii x (List.mem_cons_of_mem c hx))]
    rfl

/-- The `or`-fallback is not taken for nonempty ASCII names. -/
theorem unidecodeOrFallback_ascii (q : List Nat) (hne : q ≠ [])
    (hascii : ∀ c ∈ q, c < 128) :
    unidecodeOrFallback q = q := by
  rw [unidecodeOrFallback, unidecodeName_ascii q hascii]
  simp [hne]

/-- `_dataverse_unquote` inverts the shared encode pipeline (quote, then
leading-dot encode) on nonempty ASCII names, for any safe set. -/
theorem dataverseUnquote_encode (safe : Nat → Bool) (q : List Nat)
    (hne : q ≠ []) (hascii : ∀ c ∈ q, c < 128) :
    dataverseUnquote (encodeLeadingDot (quoteName safe (unidecodeOrFallback q)))
      = .ok q := by
  rw [unidecodeOrFallback_ascii q hne hascii, dataverseUnquote,
    decodeLeadingDot_encodeLeadingDot _ (quoteName_ne_nil safe q hne),
    unquoteEscaped_quoteName safe q hascii]

/-- `_dataverse_unquote` inverts `_dataverse_dirname_quote` on nonempty
ASCII names. -/
theorem dataverseUnquote_dirnameQuote (q : List Nat) (hne : q ≠ [])
    (hascii : ∀ c ∈ q, c < 128) :
    dataverseUnquote (dirnameQuote q) = .ok q :=
  dataverseUnquote_encode dirnameSafe q hne hascii

/-- `_dataverse_unquote` inverts `_dataverse_filename_quote` on nonempty
ASCII names. -/
theorem dataverseUnquote_filenameQuote (q : List Nat) (hne : q ≠ [])
    (hascii : ∀ c ∈ q, c < 128) :
    dataverseUnquote (filenameQuote q) = .ok q :=
  dataverseUnquote_encode filenameSafe q hne hascii

/-- `unmangle_path` on a cons: both component and tail results combine. -/
theorem unmangle_path_cons (x : List Nat) (l : List (List Nat))
    (y : List Nat) (ys : List (List Nat))
    (hx : dataverseUnquote x = .ok y) (hl : unmangle_path l = .ok ys) :
    unmangle_path (x :: l) = .ok (y :: ys) := by
  rw [unmangle_path, List.mapM_cons]
  rw [show l.mapM dataverseUnquote = unmangle_path l from rfl]
  rw [hx, hl]
  rfl

/-- `mangle_path` in the file branch distributes over a cons with nonempty
tail: the head is a directory component. -/
theorem mangle_path_false_cons (q b : List Nat) (t : List (List Nat)) :
    mangle_path false (q :: b :: t) = dirnameQuote q :: mangle_path false (b :: t) := by
  rw [show mangle_path false (q :: b :: t)
        = ((q :: b :: t).dropLast).map dirnameQuote
            ++ [filenameQuote ((q :: b :: t).getLastD [])] from rfl]
  rw [show mangle_path false (b :: t)
        = ((b :: t).dropLast).map dirnameQuote
            ++ [filenameQuote ((b :: t).getLastD [])] from rfl]
  rw [List.dropLast_cons₂, List.map_cons, List.cons_append]
  rw [List.getLastD_cons, List.getLastD_cons]
  cases t with
  | nil => rfl
  | cons u v =>
    obtain ⟨a, ha⟩ :=
      Option.isSome_iff_exists.mp (List.getLast?_isSome.mpr (List.cons_ne_nil u v))
    simp [List.getLastD_cons, ha]

/-- C1 (amended): for every path whose components are nonempty and ASCII
(all codepoints below 128), and under either filesystem state (except the
degenerate unreachable case of `.` not being a directory),
`unmangle_path (mangle_path isDir parts)` returns the original path. -/
theorem c1_roundtrip_ascii (isDir : Bool) (parts : List (List Nat))
    (hascii : asciiParts parts) (hdot : isDir = false → parts ≠ []) :
    unmangle_path (mangle_path isDir parts) = .ok parts := by
  cases isDir with
  | true =>
    rw [show mangle_path true parts = parts.map dirnameQuote from rfl]
    clear hdot
    induction parts with
    | nil => rfl
    | cons q l ih =>
      obtain ⟨hne, hq⟩ := hascii q (List.mem_cons_self q l)
      have hascii2 : asciiParts l := fun x hx => hascii x (List.mem_cons_of_mem q hx)
      rw [List.map_cons]
      exact unmangle_path_cons _ (l.map dirnameQuote) q l
        (dataverseUnquote_dirnameQuote q hne hq) (ih hascii2)
  | false =>
    induction parts with
    | nil => exact absurd rfl (hdot rfl)
    | cons q l ih =>
      cases l with
      | nil =>
        obtain ⟨hne, hq⟩ := hascii q (List.mem_cons_self q [])
        rw [show mangle_path false [q] = [filenameQuote q] from rfl]
        exact unmangle_path_cons _ [] q []
          (dataverseUnquote_filenameQuote q hne hq) rfl
      | cons b t =>
        obtain ⟨hne, hq⟩ := hascii q (List.mem_cons_self q (b :: t))
        have hascii2 : asciiParts (b :: t) :=
          fun x hx => hascii x (List.mem_cons_of_mem q hx)
        rw [mangle_path_false_cons]
        exact unmangle_path_cons _ (mangle_path false (b :: t)) q (b :: t)
          (dataverseUnquote_dirnameQuote q hne hq)
          (ih hascii2 (fun _ => List.cons_ne_nil b t))

/-- Witness for C1 (amended) at the dot-file path `.h` as a non-directory. -/
theorem c1_roundtrip_ascii_witness :
    asciiParts [[46, 104]]
    ∧ (false = false → ([[46, 104]] : List (List Nat)) ≠ [])
    ∧ unmangle_path (mangle_path false [[46, 104]]) = .ok [[46, 104]] :=
  ⟨by decide, by decide,
    c1_roundtrip_ascii false [[46, 104]] (by decide) (by decide)⟩

/-- The transliterate-or-fallback stage never returns an empty name. -/
theorem unidecodeOrFallback_ne_nil (q : List Nat) : unidecodeOrFallback q ≠ [] := by
  rw [unidecodeOrFallback]
  by_cases h : (unidecodeName q == []) = true
  · rw [if_pos h]
    simp [notRepresentableName]
  · rw [if_neg h]
    simpa using h

/-- Encoding the leading character never leaves a leading dot. -/
theorem encodeLeadingDot_head_ne_dot (s : List Nat) (hne : s ≠ []) :
    (encodeLeadingDot s).head? ≠ some 46 := by
  cases s with
  | nil => exact absurd rfl hne
  | cons c r =>
    by_cases h46 : c = 46
    · subst h46
      simp [encodeLeadingDot]
    · by_cases h95 : c = 95
      · subst h95
        simp [encodeLeadingDot]
      · rw [show encodeLeadingDot (c :: r)
              = if c == 46 then 95 :: 46 :: r
                else if c == 95 then 95 :: 95 :: r
                else c :: r from rfl]
        rw [show (c == 46) = false by simp [h46], show (c == 95) = false by simp [h95]]
        simpa using h46

/-- Neither quoting pipeline produces a component with a leading dot. -/
theorem quotePipeline_head_ne_dot (safe : Nat → Bool) (x : List Nat) :
    (encodeLeadingDot (quoteName safe (unidecodeOrFallback x))).head? ≠ some 46 :=
  encodeLeadingDot_head_ne_dot _
    (quoteName_ne_nil safe (unidecodeOrFallback x) (unidecodeOrFallback_ne_nil x))

/-- C5 (amended): `TO_ENCODE` prefixes exactly the two leading characters
`.` (as `_.`) and `_` (as `__`) and leaves every other leading character —
including `-` and space — alone; consequently no component of a mangled
path begins with `.` (components may well begin with `-`, from character
escapes, or with a space). -/
theorem c5_leading_encode_amended :
    (∀ r : List Nat, encodeLeadingDot (46 :: r) = 95 :: 46 :: r)
    ∧ (∀ r : List Nat, encodeLeadingDot (95 :: r) = 95 :: 95 :: r)
    ∧ (∀ (c : Nat) (r : List Nat), c ≠ 46 → c ≠ 95 →
        encodeLeadingDot (c :: r) = c :: r)
    ∧ (∀ (isDir : Bool) (parts : List (List Nat)),
        ∀ q ∈ mangle_path isDir parts, q.head? ≠ some 46) := by
  refine ⟨fun r => rfl, fun r => rfl, ?_, ?_⟩
  · intro c r h46 h95
    rw [show encodeLeadingDot (c :: r)
          = if c == 46 then 95 :: 46 :: r
            else if c == 95 then 95 :: 95 :: r
            else c :: r from rfl]
    rw [show (c == 46) = false by simp [h46], show (c == 95) = false by simp [h95]]
    rfl
  · intro isDir parts q hq
    cases isDir with
    | true =>
      rw [show mangle_path true parts = parts.map dirnameQuote from rfl] at hq
      obtain ⟨x, _, rfl⟩ := List.mem_map.mp hq
      exact quotePipeline_head_ne_dot dirnameSafe x
    | false =>
      cases parts with
      | nil =>
        rw [show mangle_path false [] = [filenameQuote []] from rfl] at hq
        rcases List.mem_singleton.mp hq with rfl
        exact quotePipeline_head_ne_dot filenameSafe []
      | cons p l =>
        rw [show mangle_path false (p :: l)
              = ((p :: l).dropLast).map dirnameQuote
                  ++ [filenameQuote ((p :: l).getLastD [])] from rfl] at hq
        rcases List.mem_append.mp hq with hleft | hright
        · obtain ⟨x, _, rfl⟩ := List.mem_map.mp hleft
          exact quotePipeline_head_ne_dot dirnameSafe x
        · rcases List.mem_singleton.mp hright with rfl
          exact quotePipeline_head_ne_dot filenameSafe _

/-- Witness for C5 (amended) at concrete components. -/
theorem c5_leading_encode_amended_witness :
    encodeLeadingDot [46, 104] = [95, 46, 104]
    ∧ encodeLeadingDot [95, 104] = [95, 95, 104]
    ∧ encodeLeadingDot [120, 104] = [120, 104]
    ∧ ∀ q ∈ mangle_path true [[46, 104]], q.head? ≠ some 46 :=
  ⟨c5_leading_encode_amended.1 [104],
   c5_leading_encode_amended.2.1 [104],
   c5_leading_encode_amended.2.2.1 120 [104] (by decide) (by decide),
   c5_leading_encode_amended.2.2.2 true [[46, 104]]⟩

/-- An element delivered by `getLast?` is a member of the list. -/
theorem getLastq_mem {α : Type} {l : List α} {a : α} (h : l.getLast? = some a) :
    a ∈ l := by
  obtain ⟨hne, heq⟩ := List.mem_getLast?_eq_getLast (by rw [h]; exact rfl)
  rw [heq]
  exact List.getLast_mem hne

/-- The key order is reflexive. -/
theorem keyLE_refl (p : Nat × Nat) : keyLE p p := by
  unfold keyLE
  omega

/-- The key order is transitive. -/
theorem keyLE_trans {p q r : Nat × Nat} (h1 : keyLE p q) (h2 : keyLE q r) :
    keyLE p r := by
  unfold keyLE at h1 h2 ⊢
  omega

/-- The key order is total. -/
theorem keyLE_total (p q : Nat × Nat) : keyLE p q ∨ keyLE q p := by
  unfold keyLE
  omega

/-- Membership in an insertion. -/
theorem mem_insertVersion {a x : DvVersion} :
    ∀ {l : List DvVersion}, a ∈ insertVersion x l ↔ a = x ∨ a ∈ l := by
  intro l
  induction l with
  | nil => simp [insertVersion]
  | cons y ys ih =>
    rw [insertVersion]
    by_cases hc : keyLE (versionKey x) (versionKey y)
    · rw [if_pos hc]
      simp [List.mem_cons]
    · rw [if_neg hc]
      simp only [List.mem_cons, ih]
      tauto

/-- Insertion preserves ascending order. -/
theorem pairwise_insertVersion {x : DvVersion} :
    ∀ {l : List DvVersion}, l.Pairwise versionLE →
      (insertVersion x l).Pairwise versionLE := by
  intro l
  induction l with
  | nil =>
    intro _
    simp [insertVersion]
  | cons y ys ih =>
    intro h
    rcases List.pairwise_cons.mp h with ⟨hy, hys⟩
    rw [insertVersion]
    by_cases hc : keyLE (versionKey x) (versionKey y)
    · rw [if_pos hc]
      refine List.pairwise_cons.mpr ⟨?_, h⟩
      intro b hb
      rcases List.mem_cons.mp hb with rfl | hbmem
      · exact hc
      · exact keyLE_trans hc (hy b hbmem)
    · rw [if_neg hc]
      refine List.pairwise_cons.mpr ⟨?_, ih hys⟩
      intro b hb
      rcases mem_insertVersion.mp hb with rfl | hbmem
      · rcases keyLE_total (versionKey b) (versionKey y) with hin | hin
        · exact absurd hin hc
        · exact hin
      · exact hy b hbmem

/-- The insertion sort is ascending by key. -/
theorem sortVersions_pairwise (l : List DvVersion) :
    (sortVersions l).Pairwise versionLE := by
  induction l with
  | nil => exact List.Pairwise.nil
  | cons x xs ih => exact pairwise_insertVersion ih

/-- The insertion sort permutes (here: preserves membership). -/
theorem mem_sortVersions {a : DvVersion} :
    ∀ {l : List DvVersion}, a ∈ sortVersions l ↔ a ∈ l := by
  intro l
  induction l with
  | nil => simp [sortVersions]
  | cons x xs ih =>
    rw [sortVersions]
    rw [mem_insertVersion]
    simp [ih]

/-- In an ascending list every element's key is bounded by the last
element's key. -/
theorem pairwise_le_getLast :
    ∀ (l : List DvVersion), l.Pairwise versionLE →
      ∀ (hne : l ≠ []) (y : DvVersion), y ∈ l → versionLE y (l.getLast hne) := by
  intro l
  induction l with
  | nil =>
    intro _ hne
    exact absurd rfl hne
  | cons x xs ih =>
    intro hp hne y hy
    rcases List.pairwise_cons.mp hp with ⟨hx, hxs⟩
    cases xs with
    | nil =>
      rcases List.mem_singleton.mp hy with rfl
      exact keyLE_refl _
    | cons b t =>
      rw [List.getLast_cons (List.cons_ne_nil b t)]
      rcases List.mem_cons.mp hy with rfl | hymem
      · exact hx _ (List.getLast_mem (List.cons_ne_nil b t))
      · exact ih hxs (List.cons_ne_nil b t) y hymem

/-- Under the claim's hypotheses (the DRAFT carries null version numbers
and every other version has a positive major number below `sys.maxsize`)
the sorted version list ends with the DRAFT. -/
theorem sortVersions_getLast_eq_draft (vs : List DvVersion) (d : DvVersion)
    (h1 : d ∈ vs)
    (h2 : d.versionNumber = none)
    (h3 : d.versionMinorNumber = none)
    (h5 : ∀ v ∈ vs, v ≠ d → v.versionNumber.isSome = true
        ∧ 0 < v.versionNumber.getD 0 ∧ v.versionNumber.getD 0 < pyMaxsize) :
    (sortVersions vs).getLast? = some d := by
  have hdmem : d ∈ sortVersions vs := mem_sortVersions.mpr h1
  have hne : sortVersions vs ≠ [] := List.ne_nil_of_mem hdmem
  rw [List.getLast?_eq_getLast_of_ne_nil hne]
  by_cases hxd : (sortVersions vs).getLast hne = d
  · rw [hxd]
  · exfalso
    have hxvs : (sortVersions vs).getLast hne ∈ vs :=
      mem_sortVersions.mp (List.getLast_mem hne)
    obtain ⟨hsome, hpos, hlt⟩ := h5 _ hxvs hxd
    obtain ⟨n, hn⟩ := Option.isSome_iff_exists.mp hsome
    rw [hn] at hpos hlt
    simp only [Option.getD_some] at hpos hlt
    have hkx : (versionKey ((sortVersions vs).getLast hne)).1 = n := by
      simp [versionKey, orMaxsize, hn, Nat.pos_iff_ne_zero.mp hpos]
    have hkd : versionKey d = (pyMaxsize, pyMaxsize) := by
      simp [versionKey, orMaxsize, h2, h3]
    have hled : versionLE d ((sortVersions vs).getLast hne) :=
      pairwise_le_getLast _ (sortVersions_pairwise vs) hne d hdmem
    unfold versionLE keyLE at hled
    rw [hkd] at hled
    simp only [] at hled
    omega

/-- Updating with concatenated entry lists is sequential updating. -/
theorem dictUpdate_append (m : RecordMap) (a b : List (Nat × FileIdRecord)) :
    dictUpdate (dictUpdate m a) b = dictUpdate m (a ++ b) := by
  rw [dictUpdate, dictUpdate, dictUpdate, List.foldl_append]

/-- Looking up a dict built by sequential overwrite returns the rightmost
entry for the key, or falls back to the base map. -/
theorem dictUpdate_lookup :
    ∀ (entries : List (Nat × FileIdRecord)) (m : RecordMap) (k : Nat),
      dictUpdate m entries k
        = match (entries.filter (fun e => e.1 == k)).getLast? with
          | some e => some e.2
          | none => m k := by
  intro entries
  induction entries using List.reverseRecOn with
  | nil =>
    intro m k
    rfl
  | append_singleton l e ih =>
    intro m k
    have hstep : dictUpdate m (l ++ [e])
        = fun k2 => if k2 = e.1 then some e.2 else dictUpdate m l k2 := by
      rw [dictUpdate, List.foldl_append]
      rfl
    rw [hstep, List.filter_append]
    show (if k = e.1 then some e.2 else dictUpdate m l k) = _
    by_cases hk : k = e.1
    · have hbe : (e.1 == k) = true := beq_iff_eq.mpr hk.symm
      have hfe : List.filter (fun e2 => e2.1 == k) [e] = [e] := by
        simp [List.filter_cons, hbe]
      rw [hfe, List.getLast?_concat]
      rw [if_pos hk]
    · have hbe : (e.1 == k) = false := beq_eq_false_iff_ne.mpr (fun h => hk h.symm)
      have hfe : List.filter (fun e2 => e2.1 == k) [e] = [] := by
        simp [List.filter_cons, hbe]
      rw [hfe, List.append_nil, if_neg hk]
      exact ih m k

/-- Folding the per-version updates equals one update with the flattened
entry list. -/
theorem foldl_dictUpdate_flatMap :
    ∀ (vsl : List DvVersion) (m : RecordMap),
      vsl.foldl (fun m2 v => dictUpdate m2 (versionEntries v false)) m
        = dictUpdate m (vsl.flatMap (fun v => versionEntries v false)) := by
  intro vsl
  induction vsl with
  | nil =>
    intro m
    rfl
  | cons v rest ih =>
    intro m
    rw [List.foldl_cons, List.flatMap_cons, ih, dictUpdate_append]

/-- The all-versions expansion looks up the rightmost matching entry of the
flattened listing: all versions but the last tagged non-latest, the last
(the DRAFT `d`) tagged latest. -/
theorem expandAllVersions_lookup (vs : List DvVersion) (d : DvVersion)
    (hlast : (sortVersions vs).getLast? = some d) (k : Nat) :
    expandAllVersions vs k
      = match ((((sortVersions vs).dropLast.flatMap (fun v => versionEntries v false))
            ++ versionEntries d true).filter (fun e => e.1 == k)).getLast? with
        | some e => some e.2
        | none => none := by
  have h1 : expandAllVersions vs
      = dictUpdate
          ((sortVersions vs).dropLast.foldl
            (fun m v => dictUpdate m (versionEntries v false)) (fun _ => none))
          (versionEntries d true) := by
    rw [show expandAllVersions vs
          = match (sortVersions vs).getLast? with
            | none => (sortVersions vs).dropLast.foldl
                (fun m v => dictUpdate m (versionEntries v false)) (fun _ => none)
            | some vlast => dictUpdate
                ((sortVersions vs).dropLast.foldl
                  (fun m v => dictUpdate m (versionEntries v false)) (fun _ => none))
                (versionEntries vlast true) from rfl, hlast]
  rw [h1, foldl_dictUpdate_flatMap, dictUpdate_append, dictUpdate_lookup]

/-- Every entry of a version listing carries the given latest flag, an id of
that version, and the version's release flag. -/
theorem mem_versionEntries_fields {v : DvVersion} {b : Bool} {e : Nat × FileIdRecord}
    (h : e ∈ versionEntries v b) :
    e.2.is_latest_version = b ∧ e.1 ∈ idsOf v
      ∧ e.2.is_released = decide (v.versionState = "RELEASED") := by
  obtain ⟨f, hf, rfl⟩ := List.mem_map.mp h
  exact ⟨rfl, List.mem_map.mpr ⟨f, hf, rfl⟩, rfl⟩

/-- Every listed id has an entry in the version listing. -/
theorem exists_entry_of_mem_ids {v : DvVersion} {fid : Nat} (b : Bool)
    (h : fid ∈ idsOf v) : ∃ rec, (fid, rec) ∈ versionEntries v b := by
  obtain ⟨f, hf, rfl⟩ := List.mem_map.mp h
  exact ⟨_, List.mem_map.mpr ⟨f, hf, rfl⟩⟩

/-- C7: for a version list in which a DRAFT version `d` carries null
`versionNumber` and `versionMinorNumber` (and every released version has a
positive major number below `sys.maxsize`), the all-versions cache
expansion sorts the versions ascending by key with the DRAFT last; a file
id is mapped to a record with `is_latest_version = true` exactly when it is
listed in the DRAFT (latest) version; every listed id of every version is
recorded; and every record tagged non-latest stems from an earlier version,
with `is_released = (versionState == "RELEASED")` of that version. -/
theorem c7_all_versions_expansion (vs : List DvVersion) (d : DvVersion)
    (h1 : d ∈ vs)
    (h2 : d.versionNumber = none)
    (h3 : d.versionMinorNumber = none)
    (h4 : d.versionState = "DRAFT")
    (h5 : ∀ v ∈ vs, v ≠ d → v.versionNumber.isSome = true
        ∧ 0 < v.versionNumber.getD 0 ∧ v.versionNumber.getD 0 < pyMaxsize) :
    (sortVersions vs).Pairwise versionLE
    ∧ (sortVersions vs).getLast? = some d
    ∧ (∀ fid, (∃ r, expandAllVersions vs fid = some r ∧ r.is_latest_version = true)
        ↔ fid ∈ idsOf d)
    ∧ (∀ v ∈ vs, ∀ fid ∈ idsOf v, (expandAllVersions vs fid).isSome = true)
    ∧ (∀ fid r, expandAllVersions vs fid = some r → r.is_latest_version = false →
        fid ∉ idsOf d ∧ ∃ v, v ∈ vs ∧ v ≠ d ∧ fid ∈ idsOf v
          ∧ r.is_released = decide (v.versionState = "RELEASED")) := by
  have hlast : (sortVersions vs).getLast? = some d :=
    sortVersions_getLast_eq_draft vs d h1 h2 h3 h5
  have hlook := expandAllVersions_lookup vs d hlast
  have hF2ne : ∀ fid, fid ∈ idsOf d →
      (versionEntries d true).filter (fun e => e.1 == fid) ≠ [] := by
    intro fid hin
    obtain ⟨rec, hrec⟩ := exists_entry_of_mem_ids true hin
    exact List.ne_nil_of_mem (List.mem_filter.mpr ⟨hrec, by simp⟩)
  refine ⟨sortVersions_pairwise vs, hlast, ?_, ?_, ?_⟩
  · -- latest-marked ids are exactly the DRAFT's ids
    intro fid
    constructor
    · rintro ⟨r, hr, hlat⟩
      rw [hlook fid, List.filter_append] at hr
      by_cases hF2 : (versionEntries d true).filter (fun e => e.1 == fid) = []
      · exfalso
        rw [hF2, List.append_nil] at hr
        cases hF1 : (((sortVersions vs).dropLast.flatMap
            (fun v => versionEntries v false)).filter (fun e => e.1 == fid)).getLast? with
        | none =>
          rw [hF1] at hr
          exact absurd hr (by simp)
        | some e =>
          rw [hF1] at hr
          have hre : r = e.2 := by
            injection hr with h
            exact h.symm
          have hmem := getLastq_mem hF1
          have heE1 := List.mem_of_mem_filter hmem
          obtain ⟨v, _, hev⟩ := List.mem_flatMap.mp heE1
          have hfalse := (mem_versionEntries_fields hev).1
          rw [hre, hfalse] at hlat
          simp at hlat
      · rw [List.getLast?_append_of_ne_nil _ hF2] at hr
        obtain ⟨e, he⟩ := Option.isSome_iff_exists.mp (List.getLast?_isSome.mpr hF2)
        rw [he] at hr
        have hmem := getLastq_mem he
        have hfid : (e.1 == fid) = true := (List.mem_filter.mp hmem).2
        have heE2 := List.mem_of_mem_filter hmem
        have hids := (mem_versionEntries_fields heE2).2.1
        rw [beq_iff_eq.mp hfid] at hids
        exact hids
    · intro hin
      have hne := hF2ne fid hin
      rw [hlook fid, List.filter_append,
        List.getLast?_append_of_ne_nil _ hne]
      obtain ⟨e, he⟩ := Option.isSome_iff_exists.mp (List.getLast?_isSome.mpr hne)
      rw [he]
      have heE2 := List.mem_of_mem_filter (getLastq_mem he)
      exact ⟨e.2, rfl, (mem_versionEntries_fields heE2).1⟩
  · -- coverage of every version's ids
    intro v hv fid hfid
    have hsplit : (sortVersions vs).dropLast ++ [d] = sortVersions vs :=
      List.dropLast_append_getLast? _ hlast
    have hv2 : v ∈ (sortVersions vs).dropLast ++ [d] := by
      rw [hsplit]
      exact mem_sortVersions.mpr hv
    rw [hlook fid, List.filter_append]
    by_cases hF2 : (versionEntries d true).filter (fun e => e.1 == fid) = []
    · rcases List.mem_append.mp hv2 with hdl | hdmem
      · obtain ⟨rec, hrec⟩ := exists_entry_of_mem_ids false hfid
        have hE1mem : (fid, rec) ∈ (sortVersions vs).dropLast.flatMap
            (fun v2 => versionEntries v2 false) :=
          List.mem_flatMap.mpr ⟨v, hdl, hrec⟩
        have hne : (((sortVersions vs).dropLast.flatMap
            (fun v2 => versionEntries v2 false)).filter (fun e => e.1 == fid)) ≠ [] :=
          List.ne_nil_of_mem (List.mem_filter.mpr ⟨hE1mem, by simp⟩)
        rw [hF2, List.append_nil]
        obtain ⟨e, he⟩ := Option.isSome_iff_exists.mp (List.getLast?_isSome.mpr hne)
        rw [he]
        rfl
      · rcases List.mem_singleton.mp hdmem with rfl
        exact absurd (hF2ne fid hfid) (by simp [hF2])
    · rw [List.getLast?_append_of_ne_nil _ hF2]
      obtain ⟨e, he⟩ := Option.isSome_iff_exists.mp (List.getLast?_isSome.mpr hF2)
      rw [he]
      rfl
  · -- non-latest records stem from earlier versions
    intro fid r hr hlat
    rw [hlook fid, List.filter_append] at hr
    by_cases hF2 : (versionEntries d true).filter (fun e => e.1 == fid) = []
    · rw [hF2, List.append_nil] at hr
      cases hF1 : (((sortVersions vs).dropLast.flatMap
          (fun v => versionEntries v false)).filter (fun e => e.1 == fid)).getLast? with
      | none =>
        rw [hF1] at hr
        exact absurd hr (by simp)
      | some e =>
        rw [hF1] at hr
        have hre : r = e.2 := by
          injection hr with h
          exact h.symm
        have hmem := getLastq_mem hF1
        have hfid : (e.1 == fid) = true := (List.mem_filter.mp hmem).2
        have heE1 := List.mem_of_mem_filter hmem
        obtain ⟨v, hvdl, hev⟩ := List.mem_flatMap.mp heE1
        obtain ⟨_, hids, hrel⟩ := mem_versionEntries_fields hev
        have hnotd : fid ∉ idsOf d := by
          intro hcontra
          exact hF2ne fid hcontra hF2
        have hvvs : v ∈ vs := mem_sortVersions.mp (List.dropLast_subset _ hvdl)
        refine ⟨hnotd, v, hvvs, ?_, ?_, ?_⟩
        · rintro rfl
          rw [beq_iff_eq.mp hfid] at hids
          exact hnotd hids
        · rw [beq_iff_eq.mp hfid] at hids
          exact hids
        · rw [hre]
          exact hrel
    · exfalso
      rw [List.getLast?_append_of_ne_nil _ hF2] at hr
      obtain ⟨e, he⟩ := Option.isSome_iff_exists.mp (List.getLast?_isSome.mpr hF2)
      rw [he] at hr
      have hre : r = e.2 := by
        injection hr with h
        exact h.symm
      have heE2 := List.mem_of_mem_filter (getLastq_mem he)
      have htrue := (mem_versionEntries_fields heE2).1
      rw [hre, htrue] at hlat
      simp at hlat

/-- Witness for C7 at a concrete two-version listing. -/
theorem c7_all_versions_expansion_witness :
    sampleDraft ∈ sampleVersions
    ∧ sampleDraft.versionNumber = none
    ∧ sampleDraft.versionMinorNumber = none
    ∧ sampleDraft.versionState = "DRAFT"
    ∧ (∀ v ∈ sampleVersions, v ≠ sampleDraft → v.versionNumber.isSome = true
        ∧ 0 < v.versionNumber.getD 0 ∧ v.versionNumber.getD 0 < pyMaxsize)
    ∧ ((sortVersions sampleVersions).Pairwise versionLE
      ∧ (sortVersions sampleVersions).getLast? = some sampleDraft
      ∧ (∀ fid, (∃ r, expandAllVersions sampleVersions fid = some r
            ∧ r.is_latest_version = true) ↔ fid ∈ idsOf sampleDraft)
      ∧ (∀ v ∈ sampleVersions, ∀ fid ∈ idsOf v,
          (expandAllVersions sampleVersions fid).isSome = true)
      ∧ (∀ fid r, expandAllVersions sampleVersions fid = some r →
          r.is_latest_version = false →
          fid ∉ idsOf sampleDraft ∧ ∃ v, v ∈ sampleVersions ∧ v ≠ sampleDraft
            ∧ fid ∈ idsOf v ∧ r.is_released = decide (v.versionState = "RELEASED"))) :=
  ⟨by decide, rfl, rfl, rfl, by decide,
    c7_all_versions_expansion sampleVersions sampleDraft
      (by decide) rfl rfl rfl (by decide)⟩
